/-
Verification of the queue-bot slot allocation engine.

The definitions below are a shallow embedding of `src/database.py` (the Slot
Ledger and Event Catalog, backed by SQLite) and of the relevant handlers in
`src/bot.py` (the exchange-accept callback and the capacity-parsing step of
event creation).

Embedding conventions:
* The `events` table is a `List EventRec` kept in insertion (creation) order,
  so `ORDER BY created_at DESC ... fetchone` is "last matching element".
  `id INTEGER PRIMARY KEY` means ids are unique; theorems that need this take
  it as a hypothesis.
* The `queue` table is a `List Entry`.  Its two SQL `UNIQUE` constraints,
  `UNIQUE(event_id, position)` and `UNIQUE(event_id, user_id)`, are modelled
  by boolean checks (`posKeysOk`, `userKeysOk`); an `INSERT` or `UPDATE` whose
  result would violate them fails (sqlite3.IntegrityError), which the Python
  code catches and turns into an error return / rollback.
* `NULL`-able text columns are `Option String`; Python truthiness of strings
  (`None` and `""` are falsy) is modelled by `pyOr`.
* Positions are `Int`: `swap_positions` transiently stores the sentinel `-1`.
-/
import Mathlib

set_option linter.unusedVariables false

/-- A row of the `events` table (`src/database.py`, `init_db`). -/
structure EventRec where
  id : Nat
  name : String
  max_positions : Int
  subgroup : Int
  deriving Repr, DecidableEq

/-- A row of the `queue` table (`src/database.py`, `init_db`). -/
structure Entry where
  event_id : Nat
  position : Int
  user_id : Nat
  username : Option String
  first_name : Option String
  deriving Repr, DecidableEq

abbrev Queue := List Entry

/-- Model of `SELECT ... FROM events WHERE id = ?` + `fetchone` (ids are
unique). -/
def getEvent (events : List EventRec) (eid : Nat) : Option EventRec :=
  events.find? (fun e => e.id == eid)

/-- Row matches `WHERE event_id = ? AND position = ?`. -/
def isPos (eid : Nat) (pos : Int) (x : Entry) : Bool :=
  x.event_id == eid && x.position == pos

/-- Row matches `WHERE event_id = ? AND user_id = ?`. -/
def isUser (eid uid : Nat) (x : Entry) : Bool :=
  x.event_id == eid && x.user_id == uid

/-- The `UNIQUE(event_id, position)` constraint holds of the whole table. -/
def posKeysOk : Queue → Bool
  | [] => true
  | e :: rest =>
      !(rest.any fun x => x.event_id == e.event_id && x.position == e.position)
        && posKeysOk rest

/-- The `UNIQUE(event_id, user_id)` constraint holds of the whole table. -/
def userKeysOk : Queue → Bool
  | [] => true
  | e :: rest =>
      !(rest.any fun x => x.event_id == e.event_id && x.user_id == e.user_id)
        && userKeysOk rest

/-- Model of `INSERT INTO queue ...`: appends the row, or fails
(IntegrityError) if a
`UNIQUE` constraint would be violated. -/
def insertEntry (q : Queue) (e : Entry) : Option Queue :=
  if (q.any fun x => x.event_id == e.event_id && x.position == e.position)
      || (q.any fun x => x.event_id == e.event_id && x.user_id == e.user_id) then
    none
  else
    some (q ++ [e])

/-- Python `a or b` on an optional string: `None` and `""` are falsy. -/
def pyOr (a : Option String) (b : String) : String :=
  match a with
  | some s => if s = "" then b else s
  | none => b

/-- Display name fallback `existing["first_name"] or existing["username"]
or the user id string`
(`register_position`, line 152). -/
def displayOf (e : Entry) : String :=
  pyOr e.first_name (pyOr e.username ("ID:" ++ toString e.user_id))

/-- Row built by the `INSERT INTO queue (event_id, position, user_id,
username, first_name)` statements. -/
def mkEntry (eid : Nat) (pos : Int) (uid : Nat) (un fn : Option String) : Entry :=
  { event_id := eid, position := pos, user_id := uid,
    username := un, first_name := fn }

/-- Outcome of `register_position` (`src/database.py`, lines 128-177); the
constructors mirror the distinct returned messages. -/
inductive RegResult where
  | eventNotFound
  | outOfRange (maxPos : Int)
  | alreadyTaken (pos : Int) (holder : String)
  | alreadyRegistered (pos : Int)
  | ok (pos : Int)
  | insertError
  deriving Repr, DecidableEq

/-- Model of `register_position(event_id, position, user_id, username,
first_name)`
(`src/database.py`, lines 128-177), checks in source order: event exists,
position in `[1, max_positions]`, position free, user not yet registered,
then `INSERT`. -/
def register_position (events : List EventRec) (q : Queue) (eid : Nat)
    (pos : Int) (uid : Nat) (username first_name : Option String) :
    RegResult × Queue :=
  match getEvent events eid with
  | none => (.eventNotFound, q)
  | some ev =>
    if pos < 1 || pos > ev.max_positions then (.outOfRange ev.max_positions, q)
    else
      match q.find? (isPos eid pos) with
      | some existing => (.alreadyTaken pos (displayOf existing), q)
      | none =>
        match q.find? (isUser eid uid) with
        | some prior => (.alreadyRegistered prior.position, q)
        | none =>
          match insertEntry q (mkEntry eid pos uid username first_name) with
          | some q2 => (.ok pos, q2)
          | none => (.insertError, q)

/-- Model of `cancel_registration` (`src/database.py`, lines 180-192):
`DELETE FROM
queue WHERE event_id = ? AND user_id = ?`, success iff a row was deleted. -/
def cancel_registration (q : Queue) (eid uid : Nat) : Bool × Queue :=
  let q2 := q.filter (fun x => !(isUser eid uid x))
  (decide (q2.length < q.length), q2)

/-- Row effect of `UPDATE queue SET position = v WHERE event_id = ? AND
user_id = ?` on one row. -/
def updEnt (eid uid : Nat) (v : Int) (x : Entry) : Entry :=
  if isUser eid uid x then { x with position := v } else x

/-- One SQL `UPDATE queue SET position = v WHERE event_id = ? AND user_id = ?`:
returns the updated table, or `none` (IntegrityError) if the update would
violate `UNIQUE(event_id, position)`. -/
def updatePos (q : Queue) (eid uid : Nat) (v : Int) : Option Queue :=
  if posKeysOk (q.map (updEnt eid uid v)) then some (q.map (updEnt eid uid v))
  else none

/-- Model of `swap_positions` (`src/database.py`, lines 208-250): looks up
the positions of both users, then swaps through the sentinel position `-1`; any failing step
rolls the transaction back to the original table. -/
def swap_positions (q : Queue) (eid u1 u2 : Nat) : Bool × Queue :=
  match q.find? (isUser eid u1), q.find? (isUser eid u2) with
  | some e1, some e2 =>
    (match updatePos q eid u1 (-1) with
     | none => (false, q)
     | some qa =>
       match updatePos qa eid u2 e1.position with
       | none => (false, q)
       | some qb =>
         match updatePos qb eid u1 e2.position with
         | none => (false, q)
         | some qc => (true, qc))
  | _, _ => (false, q)

/-- Outcome of `admin_register` (`src/database.py`, lines 253-304).  `ok`
carries, when some occupant was displaced, the `username` column of that
occupant
(itself nullable). -/
inductive AdminResult where
  | eventNotFound
  | outOfRange (maxPos : Int)
  | ok (kicked : Option (Option String))
  | insertError
  deriving Repr, DecidableEq

/-- Model of `admin_register(event_id, position, user_id, username,
first_name)`
(`src/database.py`, lines 253-304): event-exists and range checks, then
`DELETE` of the own entry of the user, then look up and `DELETE` whoever holds the
target position, then `INSERT` with display name
`first_name if first_name else username`. -/
def admin_register (events : List EventRec) (q : Queue) (eid : Nat) (pos : Int)
    (uid : Nat) (username : String) (first_name : Option String) :
    AdminResult × Queue :=
  match getEvent events eid with
  | none => (.eventNotFound, q)
  | some ev =>
    if pos < 1 || pos > ev.max_positions then (.outOfRange ev.max_positions, q)
    else
      let q1 := q.filter (fun x => !(isUser eid uid x))
      let kicked := q1.find? (isPos eid pos)
      let q2 := q1.filter (fun x => !(isPos eid pos x))
      let display_name := pyOr first_name username
      match insertEntry q2 (mkEntry eid pos uid (some username) (some display_name)) with
      | some q3 => (.ok (kicked.map (fun k => k.username)), q3)
      | none => (.insertError, q)

/-- Row matches `WHERE event_id = ? AND LOWER(username) = ?` with the lowered
argument (`kick_user`); SQL `NULL` never compares equal. -/
def kickMatch (eid : Nat) (username : String) (x : Entry) : Bool :=
  x.event_id == eid &&
    (match x.username with
     | some u => u.toLower == username.toLower
     | none => false)

/-- Model of `kick_user` (`src/database.py`, lines 318-337): finds the row
with
`LOWER(username) = lowered`, then deletes all such rows; reports the position
held. -/
def kick_user (q : Queue) (eid : Nat) (username : String) : Bool × Queue :=
  match q.find? (kickMatch eid username) with
  | none => (false, q)
  | some _ => (true, q.filter (fun x => !(kickMatch eid username x)))

/-- Insert a row into a position-sorted list (stable insertion sort step). -/
def insertByPos (e : Entry) : Queue → Queue
  | [] => [e]
  | x :: xs => if e.position ≤ x.position then e :: x :: xs
               else x :: insertByPos e xs

/-- Sort rows by ascending position (SQL `ORDER BY position`). -/
def sortByPos : Queue → Queue
  | [] => []
  | x :: xs => insertByPos x (sortByPos xs)

/-- Model of `get_queue` (`src/database.py`, lines 340-350): the rows of the
event ordered
by position ascending. -/
def get_queue (q : Queue) (eid : Nat) : Queue :=
  sortByPos (q.filter (fun x => x.event_id == eid))

/-- One Slot Ledger operation, as invoked on the shared queue table. -/
inductive Op where
  | reg (eid : Nat) (pos : Int) (uid : Nat) (username first_name : Option String)
  | cancel (eid uid : Nat)
  | swap (eid u1 u2 : Nat)
  | admin (eid : Nat) (pos : Int) (uid : Nat) (username : String)
      (first_name : Option String)
  | kick (eid : Nat) (username : String)

/-- Apply one operation to the queue table (events are not mutated by any of
these operations). -/
def applyOp (events : List EventRec) (q : Queue) : Op → Queue
  | .reg eid pos uid un fn => (register_position events q eid pos uid un fn).2
  | .cancel eid uid => (cancel_registration q eid uid).2
  | .swap eid u1 u2 => (swap_positions q eid u1 u2).2
  | .admin eid pos uid un fn => (admin_register events q eid pos uid un fn).2
  | .kick eid un => (kick_user q eid un).2

/-- Run a sequence of operations starting from the empty queue. -/
def runOps (events : List EventRec) (ops : List Op) : Queue :=
  ops.foldl (applyOp events) []

/-- Checks that each row has its position in `[1, max_positions]` of its
(existing) event. -/
def rangeOk (events : List EventRec) : Queue → Bool
  | [] => true
  | e :: rest =>
      (match getEvent events e.event_id with
       | some ev => decide (1 ≤ e.position) && decide (e.position ≤ ev.max_positions)
       | none => false)
        && rangeOk events rest

/-- The Slot Ledger data-model invariant: both `UNIQUE` constraints plus the
position-range bound. -/
def invar (events : List EventRec) (q : Queue) : Bool :=
  posKeysOk q && userKeysOk q && rangeOk events q

/-- Row built by `INSERT INTO events (name, max_positions, subgroup)`. -/
def mkEvent (i : Nat) (name : String) (max_positions subgroup : Int) :
    EventRec :=
  { id := i, name := name, max_positions := max_positions,
    subgroup := subgroup }

/-- Model of `add_event` (`src/database.py`, lines 54-67): `INSERT INTO
events (name,
max_positions, subgroup)`; fails (IntegrityError) on a duplicate name.  The
autoincrement id is one more than the largest id present. -/
def add_event (events : List EventRec) (name : String) (max_positions : Int)
    (subgroup : Int) : Bool × List EventRec :=
  if events.any (fun e => e.name == name) then (false, events)
  else
    (true, events ++ [mkEvent ((events.map (fun e => e.id)).foldr max 0 + 1)
      name max_positions subgroup])

/-- Model of `rename_event` (`src/database.py`, lines 112-125): `UPDATE
events SET
name = ? WHERE id = ?`.  If no row has the id, zero rows change and the call
still commits and returns `True`; an IntegrityError (the new name already
belongs to a different row) returns `False` with no change. -/
def rename_event (events : List EventRec) (eid : Nat) (newName : String) :
    Bool × List EventRec :=
  if events.any (fun e => e.id == eid) then
    if events.any (fun x => x.id != eid && x.name == newName) then
      (false, events)
    else
      (true, events.map (fun e => if e.id == eid then { e with name := newName } else e))
  else (true, events)

/-- Substring containment on character lists (`sub` occurs inside `s`),
modelling SQL `LIKE "%sub%"`. -/
def containsSub (s sub : List Char) : Bool :=
  s.tails.any (fun t => sub.isPrefixOf t)

/-- Lower-case a string character by character (SQL `LOWER`, Python
`str.lower`). -/
def lowerStr (s : String) : List Char :=
  s.data.map Char.toLower

/-- Model of `find_event_by_keyword` (`src/database.py`, lines 79-89):
`WHERE
LOWER(name) LIKE "%keyword.lower()%" ORDER BY created_at DESC` + `fetchone`.
With the event list in creation order, the most recently created match is the
last matching element. -/
def find_event_by_keyword (events : List EventRec) (keyword : String) :
    Option EventRec :=
  (events.filter (fun e => containsSub (lowerStr e.name) (lowerStr keyword))).getLast?

/-- A pending exchange request (`src/bot.py`, line 89): the in-memory
`pending_exchanges` dict value, keyed by the id of the target user. -/
structure Exchange where
  from_user_id : Nat
  event_id : Nat
  from_position : Int
  target_position : Int
  deriving Repr, DecidableEq

/-- The `pending_exchanges` dict: an association list from target user id to
the pending request (at most one binding per key). -/
abbrev PendingMap := List (Nat × Exchange)

/-- Model of `pending_exchanges.get(key)`. -/
def pendingGet (pend : PendingMap) (key : Nat) : Option Exchange :=
  (pend.find? (fun kv => kv.1 == key)).map (fun kv => kv.2)

/-- Model of `del pending_exchanges[key]`. -/
def pendingDel (pend : PendingMap) (key : Nat) : PendingMap :=
  pend.filter (fun kv => kv.1 != key)

/-- Outcome of the exchange-accept callback, as observable by the target. -/
inductive AcceptResult where
  | stale
  | swapped
  | swapFailed
  deriving Repr, DecidableEq

/-- Model of `callback_exchange_accept` (`src/bot.py`, lines 486-519):
`target` is
`callback.from_user.id`, `from_uid` is the initiator id parsed from the
callback data.  If no pending request exists for the target, or its recorded
initiator differs, answer "Запрос устарел" (stale) and touch nothing.
Otherwise call `swap_positions` and then, whatever the swap returned,
`del pending_exchanges[target]`. -/
def callback_exchange_accept (pend : PendingMap) (q : Queue)
    (target from_uid : Nat) : AcceptResult × PendingMap × Queue :=
  match pendingGet pend target with
  | none => (.stale, pend, q)
  | some ex =>
    if ex.from_user_id != from_uid then (.stale, pend, q)
    else
      let res := swap_positions q ex.event_id from_uid target
      ((if res.1 then .swapped else .swapFailed), pendingDel pend target, res.2)

/-- Python `str.strip()`: the characters with leading and trailing
whitespace removed. -/
def pyStrip (s : String) : List Char :=
  ((s.data.dropWhile Char.isWhitespace).reverse.dropWhile
    Char.isWhitespace).reverse

/-- Digit-string parse: `none` unless the list is nonempty and all digits. -/
def parseDigits : List Char → Option Nat
  | [] => none
  | cs =>
    if cs.all Char.isDigit then
      some (cs.foldl (fun acc c => acc * 10 + (c.toNat - 48)) 0)
    else none

/-- Python `int(text)` on a decimal string: optional surrounding whitespace,
optional single sign, then digits; anything else raises ValueError (`none`). -/
def pyInt (s : String) : Option Int :=
  match pyStrip s with
  | '-' :: rest => (parseDigits rest).map (fun n => -(n : Int))
  | '+' :: rest => (parseDigits rest).map (fun n => (n : Int))
  | ds => (parseDigits ds).map (fun n => (n : Int))

/-- Model of `process_max_positions` (`src/bot.py`, lines 850-857):
`int(message.text) if message.text.strip() else 30`, with `ValueError`
caught and replaced by 30. -/
def parse_max_positions (text : String) : Int :=
  if pyStrip text = [] then 30
  else
    match pyInt text with
    | some n => n
    | none => 30

/-- The event-creation flow from the `AwaitingCapacity` step (`src/bot.py`,
`process_max_positions` then `process_subgroup`, lines 850-880): parse the
capacity text, then `add_event` with it. -/
def create_event_flow (events : List EventRec) (name : String) (text : String)
    (subgroup : Int) : Bool × List EventRec :=
  add_event events name (parse_max_positions text) subgroup

/-- Net row effect of a successful `swap_positions(eid, u1, u2)` where `p1`,
`p2` are the pre-swap positions of `u1` and `u2`: `u1` ends at `p2`, `u2` at `p1`,
every other row (and every other field) untouched. -/
def swapEnt (eid u1 u2 : Nat) (p1 p2 : Int) (x : Entry) : Entry :=
  if isUser eid u1 x then { x with position := p2 }
  else if isUser eid u2 x then { x with position := p1 }
  else x

/-- Propositional form of `UNIQUE(event_id, position)`: no two distinct rows
share an (event, position) key. -/
def PosUnique (q : Queue) : Prop :=
  q.Pairwise (fun a b => ¬(a.event_id = b.event_id ∧ a.position = b.position))

/-- Propositional form of `UNIQUE(event_id, user_id)`: no two distinct rows
share an (event, caller) key. -/
def UserUnique (q : Queue) : Prop :=
  q.Pairwise (fun a b => ¬(a.event_id = b.event_id ∧ a.user_id = b.user_id))

/-- Propositional form of the range bound: for every row the event exists and its
position lies in `[1, max_positions]`. -/
def InRange (events : List EventRec) (q : Queue) : Prop :=
  ∀ e ∈ q, ∃ ev, getEvent events e.event_id = some ev ∧
    1 ≤ e.position ∧ e.position ≤ ev.max_positions

theorem posKeysOk_iff (q : Queue) : posKeysOk q = true ↔ PosUnique q := by
  induction q with
  | nil => simp [posKeysOk, PosUnique]
  | cons e rest ih =>
    simp only [posKeysOk, Bool.and_eq_true, Bool.not_eq_true', List.any_eq_false,
      beq_iff_eq, PosUnique, List.pairwise_cons, ih]
    constructor
    · rintro ⟨h1, h2⟩
      refine ⟨fun a ha => ?_, h2⟩
      rintro ⟨he, hp⟩
      exact h1 a ha ⟨he.symm, hp.symm⟩
    · rintro ⟨h1, h2⟩
      refine ⟨fun a ha => ?_, h2⟩
      rintro ⟨he, hp⟩
      exact h1 a ha ⟨he.symm, hp.symm⟩

theorem userKeysOk_iff (q : Queue) : userKeysOk q = true ↔ UserUnique q := by
  induction q with
  | nil => simp [userKeysOk, UserUnique]
  | cons e rest ih =>
    simp only [userKeysOk, Bool.and_eq_true, Bool.not_eq_true', List.any_eq_false,
      beq_iff_eq, UserUnique, List.pairwise_cons, ih]
    constructor
    · rintro ⟨h1, h2⟩
      refine ⟨fun a ha => ?_, h2⟩
      rintro ⟨he, hp⟩
      exact h1 a ha ⟨he.symm, hp.symm⟩
    · rintro ⟨h1, h2⟩
      refine ⟨fun a ha => ?_, h2⟩
      rintro ⟨he, hp⟩
      exact h1 a ha ⟨he.symm, hp.symm⟩

theorem rangeOk_iff (events : List EventRec) (q : Queue) :
    rangeOk events q = true ↔ InRange events q := by
  induction q with
  | nil => simp [rangeOk, InRange]
  | cons e rest ih =>
    simp only [rangeOk, Bool.and_eq_true, ih, InRange, List.mem_cons]
    constructor
    · rintro ⟨h1, h2⟩ x hx
      rcases hx with rfl | hx
      · rcases hev : getEvent events x.event_id with _ | ev
        · rw [hev] at h1; cases h1
        · rw [hev] at h1
          simp only [Bool.and_eq_true, decide_eq_true_eq] at h1
          exact ⟨ev, rfl, h1.1, h1.2⟩
      · exact h2 x hx
    · intro h
      constructor
      · rcases h e (Or.inl rfl) with ⟨ev, hev, h1, h2⟩
        rw [hev]
        simp only [Bool.and_eq_true, decide_eq_true_eq]
        exact ⟨h1, h2⟩
      · intro x hx
        exact h x (Or.inr hx)

theorem invar_iff (events : List EventRec) (q : Queue) :
    invar events q = true ↔ PosUnique q ∧ UserUnique q ∧ InRange events q := by
  simp only [invar, Bool.and_eq_true, posKeysOk_iff, userKeysOk_iff, rangeOk_iff,
    and_assoc]

theorem isPos_iff (eid : Nat) (pos : Int) (x : Entry) :
    isPos eid pos x = true ↔ x.event_id = eid ∧ x.position = pos := by
  simp [isPos]

theorem isUser_iff (eid uid : Nat) (x : Entry) :
    isUser eid uid x = true ↔ x.event_id = eid ∧ x.user_id = uid := by
  simp [isUser]

theorem updEnt_event_id (eid uid : Nat) (v : Int) (x : Entry) :
    (updEnt eid uid v x).event_id = x.event_id := by
  unfold updEnt; split <;> rfl

theorem updEnt_user_id (eid uid : Nat) (v : Int) (x : Entry) :
    (updEnt eid uid v x).user_id = x.user_id := by
  unfold updEnt; split <;> rfl

theorem updEnt_username (eid uid : Nat) (v : Int) (x : Entry) :
    (updEnt eid uid v x).username = x.username := by
  unfold updEnt; split <;> rfl

theorem updEnt_first_name (eid uid : Nat) (v : Int) (x : Entry) :
    (updEnt eid uid v x).first_name = x.first_name := by
  unfold updEnt; split <;> rfl

theorem updEnt_pos_of_match (eid uid : Nat) (v : Int) (x : Entry)
    (h : isUser eid uid x = true) : (updEnt eid uid v x).position = v := by
  unfold updEnt; rw [h]; rfl

theorem updEnt_of_not_match (eid uid : Nat) (v : Int) (x : Entry)
    (h : isUser eid uid x = false) : updEnt eid uid v x = x := by
  unfold updEnt; rw [h]; rfl

theorem posDistinct {q : Queue} (h : PosUnique q) {a b : Entry}
    (ha : a ∈ q) (hb : b ∈ q) (hne : a ≠ b) :
    ¬(a.event_id = b.event_id ∧ a.position = b.position) := by
  have hsym : Symmetric (fun a b : Entry =>
      ¬(a.event_id = b.event_id ∧ a.position = b.position)) := by
    intro x y hxy hc
    exact hxy ⟨hc.1.symm, hc.2.symm⟩
  exact List.Pairwise.forall hsym h ha hb hne

theorem userDistinct {q : Queue} (h : UserUnique q) {a b : Entry}
    (ha : a ∈ q) (hb : b ∈ q) (hne : a ≠ b) :
    ¬(a.event_id = b.event_id ∧ a.user_id = b.user_id) := by
  have hsym : Symmetric (fun a b : Entry =>
      ¬(a.event_id = b.event_id ∧ a.user_id = b.user_id)) := by
    intro x y hxy hc
    exact hxy ⟨hc.1.symm, hc.2.symm⟩
  exact List.Pairwise.forall hsym h ha hb hne

theorem find?_eq_some_of_unique {P : Entry → Bool} {q : Queue}
    (hp : q.Pairwise (fun a b => ¬(P a = true ∧ P b = true)))
    {e : Entry} (he : e ∈ q) (hPe : P e = true) : q.find? P = some e := by
  induction q with
  | nil => cases he
  | cons a rest ih =>
    rw [List.pairwise_cons] at hp
    rcases List.mem_cons.mp he with rfl | hmem
    · simp [List.find?_cons, hPe]
    · have hPa : P a = false := by
        by_contra hcon
        exact hp.1 e hmem ⟨eq_true_of_ne_false hcon, hPe⟩
      simp only [List.find?_cons, hPa]
      exact ih hp.2 hmem

theorem filter_eq_single_of_unique {P : Entry → Bool} {q : Queue}
    (hp : q.Pairwise (fun a b => ¬(P a = true ∧ P b = true)))
    {e : Entry} (he : e ∈ q) (hPe : P e = true) : q.filter P = [e] := by
  induction q with
  | nil => cases he
  | cons a rest ih =>
    rw [List.pairwise_cons] at hp
    rcases List.mem_cons.mp he with rfl | hmem
    · have : rest.filter P = [] := by
        rw [List.filter_eq_nil_iff]
        intro x hx hPx
        exact hp.1 x hx ⟨hPe, hPx⟩
      simp [List.filter_cons, hPe, this]
    · have hPa : P a = false := by
        by_contra hcon
        exact hp.1 e hmem ⟨eq_true_of_ne_false hcon, hPe⟩
      simp only [List.filter_cons, hPa, Bool.false_eq_true, if_false]
      exact ih hp.2 hmem

theorem posPair_of_PosUnique {q : Queue} (h : PosUnique q) (eid : Nat) (pos : Int) :
    q.Pairwise (fun a b => ¬(isPos eid pos a = true ∧ isPos eid pos b = true)) := by
  refine h.imp ?_
  rintro a b hab ⟨ha, hb⟩
  rw [isPos_iff] at ha hb
  exact hab ⟨ha.1.trans hb.1.symm, ha.2.trans hb.2.symm⟩

theorem userPair_of_UserUnique {q : Queue} (h : UserUnique q) (eid uid : Nat) :
    q.Pairwise (fun a b => ¬(isUser eid uid a = true ∧ isUser eid uid b = true)) := by
  refine h.imp ?_
  rintro a b hab ⟨ha, hb⟩
  rw [isUser_iff] at ha hb
  exact hab ⟨ha.1.trans hb.1.symm, ha.2.trans hb.2.symm⟩

theorem posAppendSingle {q : Queue} {e : Entry} (h : PosUnique q)
    (hfree : ∀ x ∈ q, ¬(x.event_id = e.event_id ∧ x.position = e.position)) :
    PosUnique (q ++ [e]) := by
  rw [PosUnique, List.pairwise_append]
  refine ⟨h, List.pairwise_singleton _ _, ?_⟩
  intro a ha b hb
  rw [List.mem_singleton] at hb
  subst hb
  exact hfree a ha

theorem userAppendSingle {q : Queue} {e : Entry} (h : UserUnique q)
    (hfree : ∀ x ∈ q, ¬(x.event_id = e.event_id ∧ x.user_id = e.user_id)) :
    UserUnique (q ++ [e]) := by
  rw [UserUnique, List.pairwise_append]
  refine ⟨h, List.pairwise_singleton _ _, ?_⟩
  intro a ha b hb
  rw [List.mem_singleton] at hb
  subst hb
  exact hfree a ha

theorem inRangeAppendSingle {events : List EventRec} {q : Queue} {e : Entry}
    (h : InRange events q) {ev : EventRec}
    (hev : getEvent events e.event_id = some ev)
    (h1 : 1 ≤ e.position) (h2 : e.position ≤ ev.max_positions) :
    InRange events (q ++ [e]) := by
  intro x hx
  rcases List.mem_append.mp hx with hx | hx
  · exact h x hx
  · rw [List.mem_singleton] at hx
    subst hx
    exact ⟨ev, hev, h1, h2⟩

theorem InRange.ofSublist {events : List EventRec} {q q' : Queue}
    (hs : q'.Sublist q) (h : InRange events q) : InRange events q' :=
  fun x hx => h x (hs.mem hx)

theorem isUser_set_position (eid uid : Nat) (x : Entry) (v : Int) :
    isUser eid uid { x with position := v } = isUser eid uid x := rfl

theorem updEnt_preserves_UserUnique {q : Queue} (eid uid : Nat) (v : Int)
    (hUK : UserUnique q) : UserUnique (q.map (updEnt eid uid v)) := by
  unfold UserUnique at hUK ⊢
  rw [List.pairwise_map]
  refine hUK.imp ?_
  intro a b hab hc
  rw [updEnt_event_id, updEnt_event_id, updEnt_user_id, updEnt_user_id] at hc
  exact hab hc

theorem updEnt_preserves_PosUnique {q : Queue} {eid uid : Nat} {v : Int}
    (hPK : PosUnique q) (hUK : UserUnique q)
    (hv : ∀ x ∈ q, x.event_id = eid → x.user_id ≠ uid → x.position ≠ v) :
    PosUnique (q.map (updEnt eid uid v)) := by
  unfold PosUnique at hPK ⊢
  unfold UserUnique at hUK
  rw [List.pairwise_map]
  rw [List.pairwise_iff_getElem] at hPK hUK ⊢
  intro i j hi hj hij
  intro hc
  rw [updEnt_event_id, updEnt_event_id] at hc
  have hmi := List.getElem_mem hi
  have hmj := List.getElem_mem hj
  cases hA : isUser eid uid q[i] <;> cases hB : isUser eid uid q[j]
  · rw [updEnt_of_not_match _ _ _ _ hA, updEnt_of_not_match _ _ _ _ hB] at hc
    exact hPK i j hi hj hij hc
  · rw [updEnt_of_not_match _ _ _ _ hA, updEnt_pos_of_match _ _ _ _ hB] at hc
    have hBj := (isUser_iff eid uid q[j]).mp hB
    have hei : q[i].event_id = eid := hc.1.trans hBj.1
    have hui : q[i].user_id ≠ uid := by
      intro hu
      have hAt : isUser eid uid q[i] = true := (isUser_iff eid uid q[i]).mpr ⟨hei, hu⟩
      rw [hA] at hAt
      cases hAt
    exact hv q[i] hmi hei hui hc.2
  · rw [updEnt_pos_of_match _ _ _ _ hA, updEnt_of_not_match _ _ _ _ hB] at hc
    have hAi := (isUser_iff eid uid q[i]).mp hA
    have hej : q[j].event_id = eid := hc.1.symm.trans hAi.1
    have huj : q[j].user_id ≠ uid := by
      intro hu
      have hBt : isUser eid uid q[j] = true := (isUser_iff eid uid q[j]).mpr ⟨hej, hu⟩
      rw [hB] at hBt
      cases hBt
    exact hv q[j] hmj hej huj hc.2.symm
  · have hAi := (isUser_iff eid uid q[i]).mp hA
    have hBj := (isUser_iff eid uid q[j]).mp hB
    exact hUK i j hi hj hij ⟨hAi.1.trans hBj.1.symm, hAi.2.trans hBj.2.symm⟩

theorem swap_compose (eid u1 u2 : Nat) (p1 p2 : Int) (q : Queue) :
    ((q.map (updEnt eid u1 (-1))).map (updEnt eid u2 p1)).map (updEnt eid u1 p2)
      = q.map (swapEnt eid u1 u2 p1 p2) := by
  rw [List.map_map, List.map_map]
  apply List.map_congr_left
  intro x hx
  simp only [Function.comp_apply]
  cases h1 : isUser eid u1 x <;> cases h2 : isUser eid u2 x <;>
    simp [updEnt, swapEnt, isUser_set_position, h1, h2]

theorem InRange.pos_ge_one {events : List EventRec} {q : Queue}
    (h : InRange events q) : ∀ x ∈ q, 1 ≤ x.position := by
  intro x hx
  rcases h x hx with ⟨ev, _, h1, _⟩
  exact h1

theorem swap_chain {q : Queue} {eid u1 u2 : Nat} {e1 e2 : Entry}
    (hPK : PosUnique q) (hUK : UserUnique q)
    (hR1 : ∀ x ∈ q, 1 ≤ x.position)
    (h1 : q.find? (isUser eid u1) = some e1)
    (h2 : q.find? (isUser eid u2) = some e2) :
    updatePos q eid u1 (-1) = some (q.map (updEnt eid u1 (-1)))
    ∧ updatePos (q.map (updEnt eid u1 (-1))) eid u2 e1.position
        = some ((q.map (updEnt eid u1 (-1))).map (updEnt eid u2 e1.position))
    ∧ updatePos ((q.map (updEnt eid u1 (-1))).map (updEnt eid u2 e1.position))
          eid u1 e2.position
        = some (((q.map (updEnt eid u1 (-1))).map (updEnt eid u2 e1.position)).map
            (updEnt eid u1 e2.position))
    ∧ PosUnique (((q.map (updEnt eid u1 (-1))).map (updEnt eid u2 e1.position)).map
        (updEnt eid u1 e2.position)) := by
  have he1m : e1 ∈ q := List.mem_of_find?_eq_some h1
  have he2m : e2 ∈ q := List.mem_of_find?_eq_some h2
  have hu1 : e1.event_id = eid ∧ e1.user_id = u1 :=
    (isUser_iff _ _ _).mp (List.find?_some h1)
  have hu2 : e2.event_id = eid ∧ e2.user_id = u2 :=
    (isUser_iff _ _ _).mp (List.find?_some h2)
  have hp1 : 1 ≤ e1.position := hR1 e1 he1m
  have hp2 : 1 ≤ e2.position := hR1 e2 he2m
  have PKa : PosUnique (q.map (updEnt eid u1 (-1))) := by
    refine updEnt_preserves_PosUnique hPK hUK ?_
    intro x hx _ _ hcon
    have := hR1 x hx
    omega
  have UKa : UserUnique (q.map (updEnt eid u1 (-1))) :=
    updEnt_preserves_UserUnique _ _ _ hUK
  have step1 : updatePos q eid u1 (-1) = some (q.map (updEnt eid u1 (-1))) := by
    unfold updatePos
    rw [if_pos ((posKeysOk_iff _).mpr PKa)]
  have side2 : ∀ y ∈ q.map (updEnt eid u1 (-1)),
      y.event_id = eid → y.user_id ≠ u2 → y.position ≠ e1.position := by
    intro y hy hye hyu
    rcases List.mem_map.mp hy with ⟨x, hxm, rfl⟩
    rw [updEnt_event_id] at hye
    cases hA : isUser eid u1 x
    · rw [updEnt_of_not_match _ _ _ _ hA]
      have hxu : x.user_id ≠ u1 := by
        intro hxx
        have hAt : isUser eid u1 x = true := (isUser_iff _ _ _).mpr ⟨hye, hxx⟩
        rw [hA] at hAt
        cases hAt
      have hne : x ≠ e1 := fun hq => hxu (hq ▸ hu1.2)
      intro hcp
      exact posDistinct hPK hxm he1m hne ⟨hye.trans hu1.1.symm, hcp⟩
    · rw [updEnt_pos_of_match _ _ _ _ hA]
      omega
  have PKb : PosUnique ((q.map (updEnt eid u1 (-1))).map (updEnt eid u2 e1.position)) :=
    updEnt_preserves_PosUnique PKa UKa side2
  have UKb : UserUnique ((q.map (updEnt eid u1 (-1))).map (updEnt eid u2 e1.position)) :=
    updEnt_preserves_UserUnique _ _ _ UKa
  have step2 : updatePos (q.map (updEnt eid u1 (-1))) eid u2 e1.position
      = some ((q.map (updEnt eid u1 (-1))).map (updEnt eid u2 e1.position)) := by
    unfold updatePos
    rw [if_pos ((posKeysOk_iff _).mpr PKb)]
  have side3 : ∀ z ∈ (q.map (updEnt eid u1 (-1))).map (updEnt eid u2 e1.position),
      z.event_id = eid → z.user_id ≠ u1 → z.position ≠ e2.position := by
    intro z hz hze hzu
    rcases List.mem_map.mp hz with ⟨y, hym, rfl⟩
    rw [updEnt_event_id] at hze
    rw [updEnt_user_id] at hzu
    cases hB : isUser eid u2 y
    · rw [updEnt_of_not_match _ _ _ _ hB]
      have hyu2 : y.user_id ≠ u2 := by
        intro hxx
        have hBt : isUser eid u2 y = true := (isUser_iff _ _ _).mpr ⟨hze, hxx⟩
        rw [hB] at hBt
        cases hBt
      rcases List.mem_map.mp hym with ⟨x, hxm, rfl⟩
      rw [updEnt_event_id] at hze
      rw [updEnt_user_id] at hzu hyu2
      cases hA : isUser eid u1 x
      · rw [updEnt_of_not_match _ _ _ _ hA]
        have hne : x ≠ e2 := fun hq => hyu2 (hq ▸ hu2.2)
        intro hcp
        exact posDistinct hPK hxm he2m hne ⟨hze.trans hu2.1.symm, hcp⟩
      · exfalso
        exact hzu ((isUser_iff _ _ _).mp hA).2
    · rw [updEnt_pos_of_match _ _ _ _ hB]
      have hyu2 : y.user_id = u2 := by
        have := (isUser_iff _ _ _).mp hB
        exact this.2
      have hne : e1 ≠ e2 := by
        intro hq
        apply hzu
        rw [hyu2]
        have he2u : e2.user_id = u1 := by rw [← hq]; exact hu1.2
        exact hu2.2.symm.trans he2u
      intro hcp
      exact posDistinct hPK he1m he2m hne ⟨hu1.1.trans hu2.1.symm, hcp⟩
  have PKc := updEnt_preserves_PosUnique PKb UKb side3
  have step3 : updatePos ((q.map (updEnt eid u1 (-1))).map (updEnt eid u2 e1.position))
      eid u1 e2.position
      = some (((q.map (updEnt eid u1 (-1))).map (updEnt eid u2 e1.position)).map
          (updEnt eid u1 e2.position)) := by
    unfold updatePos
    rw [if_pos ((posKeysOk_iff _).mpr PKc)]
  exact ⟨step1, step2, step3, PKc⟩

theorem swap_positions_success {q : Queue} {eid u1 u2 : Nat} {e1 e2 : Entry}
    (hPK : PosUnique q) (hUK : UserUnique q)
    (hR1 : ∀ x ∈ q, 1 ≤ x.position)
    (h1 : q.find? (isUser eid u1) = some e1)
    (h2 : q.find? (isUser eid u2) = some e2) :
    swap_positions q eid u1 u2 =
      (true, q.map (swapEnt eid u1 u2 e1.position e2.position)) := by
  obtain ⟨step1, step2, step3, _⟩ := swap_chain hPK hUK hR1 h1 h2
  unfold swap_positions
  rw [h1, h2]
  simp only [step1, step2, step3, swap_compose]

theorem swap_positions_not_found {q : Queue} {eid u1 u2 : Nat}
    (h : q.find? (isUser eid u1) = none ∨ q.find? (isUser eid u2) = none) :
    swap_positions q eid u1 u2 = (false, q) := by
  rcases h with h | h
  · rcases h2 : q.find? (isUser eid u2) with _ | e2 <;>
      simp [swap_positions, h, h2]
  · rcases h1 : q.find? (isUser eid u1) with _ | e1 <;>
      simp [swap_positions, h, h1]

theorem swap_positions_frame {q : Queue} {eid u1 u2 : Nat}
    (h : (swap_positions q eid u1 u2).1 = false) :
    swap_positions q eid u1 u2 = (false, q) := by
  rcases h1 : q.find? (isUser eid u1) with _ | e1
  · rcases h2 : q.find? (isUser eid u2) with _ | e2 <;>
      simp [swap_positions, h1, h2]
  · rcases h2 : q.find? (isUser eid u2) with _ | e2
    · simp [swap_positions, h1, h2]
    · rcases s1 : updatePos q eid u1 (-1) with _ | qa
      · simp [swap_positions, h1, h2, s1]
      · rcases s2 : updatePos qa eid u2 e1.position with _ | qb
        · simp [swap_positions, h1, h2, s1, s2]
        · rcases s3 : updatePos qb eid u1 e2.position with _ | qc
          · simp [swap_positions, h1, h2, s1, s2, s3]
          · simp [swap_positions, h1, h2, s1, s2, s3] at h

theorem swapEnt_of_match1 (eid u1 u2 : Nat) (p1 p2 : Int) (x : Entry)
    (h : isUser eid u1 x = true) :
    swapEnt eid u1 u2 p1 p2 x = { x with position := p2 } := by
  unfold swapEnt; rw [h]; rfl

theorem swapEnt_of_match2 (eid u1 u2 : Nat) (p1 p2 : Int) (x : Entry)
    (h1 : isUser eid u1 x = false) (h2 : isUser eid u2 x = true) :
    swapEnt eid u1 u2 p1 p2 x = { x with position := p1 } := by
  unfold swapEnt; rw [h1, h2]; rfl

theorem swapEnt_of_no_match (eid u1 u2 : Nat) (p1 p2 : Int) (x : Entry)
    (h1 : isUser eid u1 x = false) (h2 : isUser eid u2 x = false) :
    swapEnt eid u1 u2 p1 p2 x = x := by
  unfold swapEnt; rw [h1, h2]; rfl

theorem swapEnt_event_id (eid u1 u2 : Nat) (p1 p2 : Int) (x : Entry) :
    (swapEnt eid u1 u2 p1 p2 x).event_id = x.event_id := by
  cases hA : isUser eid u1 x <;> cases hB : isUser eid u2 x <;>
    simp [swapEnt, hA, hB]

theorem swapEnt_user_id (eid u1 u2 : Nat) (p1 p2 : Int) (x : Entry) :
    (swapEnt eid u1 u2 p1 p2 x).user_id = x.user_id := by
  cases hA : isUser eid u1 x <;> cases hB : isUser eid u2 x <;>
    simp [swapEnt, hA, hB]

theorem swap_preserves_UserUnique {q : Queue} (eid u1 u2 : Nat) (p1 p2 : Int)
    (hUK : UserUnique q) : UserUnique (q.map (swapEnt eid u1 u2 p1 p2)) := by
  unfold UserUnique at hUK ⊢
  rw [List.pairwise_map]
  refine hUK.imp ?_
  intro a b hab hc
  rw [swapEnt_event_id, swapEnt_event_id, swapEnt_user_id, swapEnt_user_id] at hc
  exact hab hc

theorem swap_preserves_InRange {events : List EventRec} {q : Queue}
    {eid u1 u2 : Nat} {e1 e2 : Entry}
    (hIR : InRange events q) (he1m : e1 ∈ q) (he2m : e2 ∈ q)
    (he1 : e1.event_id = eid) (he2 : e2.event_id = eid) :
    InRange events (q.map (swapEnt eid u1 u2 e1.position e2.position)) := by
  intro x hx
  rcases List.mem_map.mp hx with ⟨y, hym, rfl⟩
  cases hA : isUser eid u1 y
  · cases hB : isUser eid u2 y
    · rw [swapEnt_of_no_match _ _ _ _ _ _ hA hB]
      exact hIR y hym
    · rw [swapEnt_of_match2 _ _ _ _ _ _ hA hB]
      have hye : y.event_id = eid := ((isUser_iff _ _ _).mp hB).1
      rcases hIR e1 he1m with ⟨ev, hev, hb1, hb2⟩
      rw [he1] at hev
      exact ⟨ev, by simpa [hye] using hev, hb1, hb2⟩
  · rw [swapEnt_of_match1 _ _ _ _ _ _ hA]
    have hye : y.event_id = eid := ((isUser_iff _ _ _).mp hA).1
    rcases hIR e2 he2m with ⟨ev, hev, hb1, hb2⟩
    rw [he2] at hev
    exact ⟨ev, by simpa [hye] using hev, hb1, hb2⟩

theorem swap_preserves_PosUnique {q : Queue} {eid u1 u2 : Nat} {e1 e2 : Entry}
    (hPK : PosUnique q) (hUK : UserUnique q)
    (hR1 : ∀ x ∈ q, 1 ≤ x.position)
    (h1 : q.find? (isUser eid u1) = some e1)
    (h2 : q.find? (isUser eid u2) = some e2) :
    PosUnique (q.map (swapEnt eid u1 u2 e1.position e2.position)) := by
  rw [← swap_compose]
  exact (swap_chain hPK hUK hR1 h1 h2).2.2.2

theorem register_not_found {events : List EventRec} {q : Queue}
    {eid : Nat} {pos : Int} {uid : Nat} {un fn : Option String}
    (h : getEvent events eid = none) :
    register_position events q eid pos uid un fn = (.eventNotFound, q) := by
  simp [register_position, h]

theorem register_out_of_range {events : List EventRec} {q : Queue}
    {eid : Nat} {pos : Int} {uid : Nat} {un fn : Option String} {ev : EventRec}
    (h : getEvent events eid = some ev) (hr : pos < 1 ∨ pos > ev.max_positions) :
    register_position events q eid pos uid un fn
      = (.outOfRange ev.max_positions, q) := by
  have hb : (decide (pos < 1) || decide (pos > ev.max_positions)) = true := by
    rcases hr with hr | hr <;> simp [hr]
  simp [register_position, h, hb]

theorem register_taken {events : List EventRec} {q : Queue}
    {eid : Nat} {pos : Int} {uid : Nat} {un fn : Option String} {ev : EventRec}
    {ex : Entry}
    (h : getEvent events eid = some ev)
    (h1 : ¬pos < 1) (h2 : ¬pos > ev.max_positions)
    (hf : q.find? (isPos eid pos) = some ex) :
    register_position events q eid pos uid un fn
      = (.alreadyTaken pos (displayOf ex), q) := by
  simp [register_position, h, h1, h2, hf]

theorem register_already {events : List EventRec} {q : Queue}
    {eid : Nat} {pos : Int} {uid : Nat} {un fn : Option String} {ev : EventRec}
    {pr : Entry}
    (h : getEvent events eid = some ev)
    (h1 : ¬pos < 1) (h2 : ¬pos > ev.max_positions)
    (hf : q.find? (isPos eid pos) = none)
    (hu : q.find? (isUser eid uid) = some pr) :
    register_position events q eid pos uid un fn
      = (.alreadyRegistered pr.position, q) := by
  simp [register_position, h, h1, h2, hf, hu]

theorem register_ok {events : List EventRec} {q : Queue}
    {eid : Nat} {pos : Int} {uid : Nat} {un fn : Option String} {ev : EventRec}
    (h : getEvent events eid = some ev)
    (h1 : ¬pos < 1) (h2 : ¬pos > ev.max_positions)
    (hf : q.find? (isPos eid pos) = none)
    (hu : q.find? (isUser eid uid) = none) :
    register_position events q eid pos uid un fn
      = (.ok pos, q ++ [mkEntry eid pos uid un fn]) := by
  have ha1 : (q.any fun x => x.event_id == eid && x.position == pos) = false := by
    rw [List.any_eq_false]
    intro x hx
    have := List.find?_eq_none.mp hf x hx
    simpa [isPos] using this
  have ha2 : (q.any fun x => x.event_id == eid && x.user_id == uid) = false := by
    rw [List.any_eq_false]
    intro x hx
    have := List.find?_eq_none.mp hu x hx
    simpa [isUser] using this
  simp [register_position, h, h1, h2, hf, hu, insertEntry, ha1, ha2, mkEntry]

theorem admin_not_found {events : List EventRec} {q : Queue} {eid : Nat}
    {pos : Int} {uid : Nat} {username : String} {fn : Option String}
    (h : getEvent events eid = none) :
    admin_register events q eid pos uid username fn = (.eventNotFound, q) := by
  simp [admin_register, h]

theorem admin_out_of_range {events : List EventRec} {q : Queue} {eid : Nat}
    {pos : Int} {uid : Nat} {username : String} {fn : Option String}
    {ev : EventRec}
    (h : getEvent events eid = some ev) (hr : pos < 1 ∨ pos > ev.max_positions) :
    admin_register events q eid pos uid username fn
      = (.outOfRange ev.max_positions, q) := by
  have hb : (decide (pos < 1) || decide (pos > ev.max_positions)) = true := by
    rcases hr with hr | hr <;> simp [hr]
  simp [admin_register, h, hb]

theorem admin_ok {events : List EventRec} {q : Queue} {eid : Nat} {pos : Int}
    {uid : Nat} {username : String} {fn : Option String} {ev : EventRec}
    (h : getEvent events eid = some ev)
    (h1 : ¬pos < 1) (h2 : ¬pos > ev.max_positions) :
    admin_register events q eid pos uid username fn
      = (.ok (((q.filter (fun x => !(isUser eid uid x))).find? (isPos eid pos)).map
            (fun k => k.username)),
         ((q.filter (fun x => !(isUser eid uid x))).filter
            (fun x => !(isPos eid pos x)))
           ++ [mkEntry eid pos uid (some username) (some (pyOr fn username))]) := by
  have hb : (decide (pos < 1) || decide (pos > ev.max_positions)) = false := by
    simp [h1, h2]
  have ha1 : (((q.filter (fun x => !(isUser eid uid x))).filter
      (fun x => !(isPos eid pos x))).any
        (fun x => x.event_id == eid && x.position == pos)) = false := by
    rw [List.any_eq_false]
    intro x hx
    have hmem := List.mem_filter.mp hx
    have hp : isPos eid pos x = false := by simpa using hmem.2
    simpa [isPos] using hp
  have ha2 : (((q.filter (fun x => !(isUser eid uid x))).filter
      (fun x => !(isPos eid pos x))).any
        (fun x => x.event_id == eid && x.user_id == uid)) = false := by
    rw [List.any_eq_false]
    intro x hx
    have hx1 : x ∈ q.filter (fun x => !(isUser eid uid x)) :=
      List.mem_of_mem_filter hx
    have hmem := List.mem_filter.mp hx1
    have hp : isUser eid uid x = false := by simpa using hmem.2
    simpa [isUser] using hp
  have hins : insertEntry ((q.filter (fun x => !(isUser eid uid x))).filter
        (fun x => !(isPos eid pos x)))
      (mkEntry eid pos uid (some username) (some (pyOr fn username)))
      = some (((q.filter (fun x => !(isUser eid uid x))).filter
          (fun x => !(isPos eid pos x)))
        ++ [mkEntry eid pos uid (some username) (some (pyOr fn username))]) := by
    simp only [insertEntry, mkEntry, ha1, ha2, Bool.or_self, Bool.false_eq_true,
      if_false]
  simp only [admin_register, h, hb, Bool.false_eq_true, if_false, hins]

theorem posUnique_filter (p : Entry → Bool) {q : Queue} (h : PosUnique q) :
    PosUnique (q.filter p) :=
  List.Pairwise.filter p h

theorem userUnique_filter (p : Entry → Bool) {q : Queue} (h : UserUnique q) :
    UserUnique (q.filter p) :=
  List.Pairwise.filter p h

theorem inRange_filter (p : Entry → Bool) {events : List EventRec} {q : Queue}
    (h : InRange events q) : InRange events (q.filter p) :=
  h.ofSublist (List.filter_sublist q)

theorem register_preserves {events : List EventRec} {q : Queue} (eid : Nat)
    (pos : Int) (uid : Nat) (un fn : Option String)
    (hPK : PosUnique q) (hUK : UserUnique q) (hIR : InRange events q) :
    PosUnique (register_position events q eid pos uid un fn).2 ∧
    UserUnique (register_position events q eid pos uid un fn).2 ∧
    InRange events (register_position events q eid pos uid un fn).2 := by
  rcases hev : getEvent events eid with _ | ev
  · rw [register_not_found hev]
    exact ⟨hPK, hUK, hIR⟩
  · by_cases hlt : pos < 1
    · rw [register_out_of_range hev (Or.inl hlt)]
      exact ⟨hPK, hUK, hIR⟩
    · by_cases hgt : pos > ev.max_positions
      · rw [register_out_of_range hev (Or.inr hgt)]
        exact ⟨hPK, hUK, hIR⟩
      · rcases hf : q.find? (isPos eid pos) with _ | ex
        · rcases hu : q.find? (isUser eid uid) with _ | pr
          · rw [register_ok hev hlt hgt hf hu]
            refine ⟨?_, ?_, ?_⟩
            · refine posAppendSingle hPK ?_
              intro x hx hc
              exact (List.find?_eq_none.mp hf x hx)
                ((isPos_iff eid pos x).mpr ⟨hc.1, hc.2⟩)
            · refine userAppendSingle hUK ?_
              intro x hx hc
              exact (List.find?_eq_none.mp hu x hx)
                ((isUser_iff eid uid x).mpr ⟨hc.1, hc.2⟩)
            · refine inRangeAppendSingle hIR hev ?_ ?_
              · exact not_lt.mp hlt
              · exact not_lt.mp hgt
          · rw [register_already hev hlt hgt hf hu]
            exact ⟨hPK, hUK, hIR⟩
        · rw [register_taken hev hlt hgt hf]
          exact ⟨hPK, hUK, hIR⟩

theorem cancel_preserves {events : List EventRec} {q : Queue} (eid uid : Nat)
    (hPK : PosUnique q) (hUK : UserUnique q) (hIR : InRange events q) :
    PosUnique (cancel_registration q eid uid).2 ∧
    UserUnique (cancel_registration q eid uid).2 ∧
    InRange events (cancel_registration q eid uid).2 := by
  exact ⟨posUnique_filter _ hPK, userUnique_filter _ hUK, inRange_filter _ hIR⟩

theorem kick_preserves {events : List EventRec} {q : Queue} (eid : Nat)
    (username : String)
    (hPK : PosUnique q) (hUK : UserUnique q) (hIR : InRange events q) :
    PosUnique (kick_user q eid username).2 ∧
    UserUnique (kick_user q eid username).2 ∧
    InRange events (kick_user q eid username).2 := by
  rcases hfind : q.find? (kickMatch eid username) with _ | e
  · simp only [kick_user, hfind]
    exact ⟨hPK, hUK, hIR⟩
  · simp only [kick_user, hfind]
    exact ⟨posUnique_filter _ hPK, userUnique_filter _ hUK, inRange_filter _ hIR⟩

theorem admin_preserves {events : List EventRec} {q : Queue} (eid : Nat)
    (pos : Int) (uid : Nat) (username : String) (fn : Option String)
    (hPK : PosUnique q) (hUK : UserUnique q) (hIR : InRange events q) :
    PosUnique (admin_register events q eid pos uid username fn).2 ∧
    UserUnique (admin_register events q eid pos uid username fn).2 ∧
    InRange events (admin_register events q eid pos uid username fn).2 := by
  rcases hev : getEvent events eid with _ | ev
  · rw [admin_not_found hev]
    exact ⟨hPK, hUK, hIR⟩
  · by_cases hlt : pos < 1
    · rw [admin_out_of_range hev (Or.inl hlt)]
      exact ⟨hPK, hUK, hIR⟩
    · by_cases hgt : pos > ev.max_positions
      · rw [admin_out_of_range hev (Or.inr hgt)]
        exact ⟨hPK, hUK, hIR⟩
      · rw [admin_ok hev hlt hgt]
        refine ⟨?_, ?_, ?_⟩
        · refine posAppendSingle (posUnique_filter _ (posUnique_filter _ hPK)) ?_
          intro x hx hc
          have hmem := List.mem_filter.mp hx
          have hp : isPos eid pos x = false := by simpa using hmem.2
          have ht : isPos eid pos x = true :=
            (isPos_iff eid pos x).mpr ⟨hc.1, hc.2⟩
          rw [hp] at ht
          cases ht
        · refine userAppendSingle (userUnique_filter _ (userUnique_filter _ hUK)) ?_
          intro x hx hc
          have hx1 : x ∈ q.filter (fun x => !(isUser eid uid x)) :=
            List.mem_of_mem_filter hx
          have hmem := List.mem_filter.mp hx1
          have hp : isUser eid uid x = false := by simpa using hmem.2
          have ht : isUser eid uid x = true :=
            (isUser_iff eid uid x).mpr ⟨hc.1, hc.2⟩
          rw [hp] at ht
          cases ht
        · refine inRangeAppendSingle (inRange_filter _ (inRange_filter _ hIR))
            hev ?_ ?_
          · exact not_lt.mp hlt
          · exact not_lt.mp hgt

theorem swap_preserves {events : List EventRec} {q : Queue} (eid u1 u2 : Nat)
    (hPK : PosUnique q) (hUK : UserUnique q) (hIR : InRange events q) :
    PosUnique (swap_positions q eid u1 u2).2 ∧
    UserUnique (swap_positions q eid u1 u2).2 ∧
    InRange events (swap_positions q eid u1 u2).2 := by
  rcases h1 : q.find? (isUser eid u1) with _ | e1
  · rw [swap_positions_not_found (Or.inl h1)]
    exact ⟨hPK, hUK, hIR⟩
  · rcases h2 : q.find? (isUser eid u2) with _ | e2
    · rw [swap_positions_not_found (Or.inr h2)]
      exact ⟨hPK, hUK, hIR⟩
    · rw [swap_positions_success hPK hUK hIR.pos_ge_one h1 h2]
      refine ⟨swap_preserves_PosUnique hPK hUK hIR.pos_ge_one h1 h2,
              swap_preserves_UserUnique _ _ _ _ _ hUK,
              swap_preserves_InRange hIR (List.mem_of_find?_eq_some h1)
                (List.mem_of_find?_eq_some h2)
                ((isUser_iff _ _ _).mp (List.find?_some h1)).1
                ((isUser_iff _ _ _).mp (List.find?_some h2)).1⟩

theorem applyOp_preserves {events : List EventRec} {q : Queue} (op : Op)
    (hPK : PosUnique q) (hUK : UserUnique q) (hIR : InRange events q) :
    PosUnique (applyOp events q op) ∧
    UserUnique (applyOp events q op) ∧
    InRange events (applyOp events q op) := by
  cases op with
  | reg eid pos uid un fn => exact register_preserves eid pos uid un fn hPK hUK hIR
  | cancel eid uid => exact cancel_preserves eid uid hPK hUK hIR
  | swap eid u1 u2 => exact swap_preserves eid u1 u2 hPK hUK hIR
  | admin eid pos uid un fn => exact admin_preserves eid pos uid un fn hPK hUK hIR
  | kick eid un => exact kick_preserves eid un hPK hUK hIR

theorem foldl_preserves (events : List EventRec) (ops : List Op) (q : Queue)
    (hPK : PosUnique q) (hUK : UserUnique q) (hIR : InRange events q) :
    PosUnique (ops.foldl (applyOp events) q) ∧
    UserUnique (ops.foldl (applyOp events) q) ∧
    InRange events (ops.foldl (applyOp events) q) := by
  induction ops generalizing q with
  | nil => exact ⟨hPK, hUK, hIR⟩
  | cons op rest ih =>
    rw [List.foldl_cons]
    obtain ⟨h1, h2, h3⟩ := applyOp_preserves op hPK hUK hIR
    exact ih _ h1 h2 h3

/-- C1: after any sequence of register/cancel/swap/adminOverride/kick
operations starting from the empty queue, for every event at most one entry
holds any given position, at most one entry belongs to any given caller, and
the position of every entry lies in `[1, max_positions]` of its (existing)
event. -/
theorem claim1_queue_invariants (events : List EventRec) (ops : List Op) :
    PosUnique (runOps events ops) ∧ UserUnique (runOps events ops) ∧
    InRange events (runOps events ops) := by
  unfold runOps
  refine foldl_preserves events ops [] List.Pairwise.nil List.Pairwise.nil ?_
  intro e he
  cases he

/-- C2: `register_position` performs its checks in exactly the source order —
event exists, then position within `[1, capacity]`, then position free (error
names the current holder), then caller not already registered (error names the
existing position) — inserting only when all pass; and the concrete
capacity-3 scenario (A holds 1): register(1,B) is AlreadyTaken(A),
register(2,A) is AlreadyRegistered(1), register(5,C) is OutOfRange. -/
theorem claim2_register_check_order :
    (∀ (events : List EventRec) (q : Queue) (eid : Nat) (pos : Int) (uid : Nat)
        (un fn : Option String), getEvent events eid = none →
        register_position events q eid pos uid un fn = (.eventNotFound, q)) ∧
    (∀ (events : List EventRec) (q : Queue) (eid : Nat) (pos : Int) (uid : Nat)
        (un fn : Option String) (ev : EventRec), getEvent events eid = some ev →
        (pos < 1 ∨ pos > ev.max_positions) →
        register_position events q eid pos uid un fn
          = (.outOfRange ev.max_positions, q)) ∧
    (∀ (events : List EventRec) (q : Queue) (eid : Nat) (pos : Int) (uid : Nat)
        (un fn : Option String) (ev : EventRec) (ex : Entry),
        getEvent events eid = some ev → ¬pos < 1 → ¬pos > ev.max_positions →
        q.find? (isPos eid pos) = some ex →
        register_position events q eid pos uid un fn
          = (.alreadyTaken pos (displayOf ex), q)) ∧
    (∀ (events : List EventRec) (q : Queue) (eid : Nat) (pos : Int) (uid : Nat)
        (un fn : Option String) (ev : EventRec) (pr : Entry),
        getEvent events eid = some ev → ¬pos < 1 → ¬pos > ev.max_positions →
        q.find? (isPos eid pos) = none → q.find? (isUser eid uid) = some pr →
        register_position events q eid pos uid un fn
          = (.alreadyRegistered pr.position, q)) ∧
    (∀ (events : List EventRec) (q : Queue) (eid : Nat) (pos : Int) (uid : Nat)
        (un fn : Option String) (ev : EventRec),
        getEvent events eid = some ev → ¬pos < 1 → ¬pos > ev.max_positions →
        q.find? (isPos eid pos) = none → q.find? (isUser eid uid) = none →
        register_position events q eid pos uid un fn
          = (.ok pos, q ++ [mkEntry eid pos uid un fn])) ∧
    (register_position [⟨1, "E", 3, 0⟩] [mkEntry 1 1 10 (some "A") (some "A")]
        1 1 20 (some "B") (some "B")
      = (.alreadyTaken 1 "A", [mkEntry 1 1 10 (some "A") (some "A")])) ∧
    (register_position [⟨1, "E", 3, 0⟩] [mkEntry 1 1 10 (some "A") (some "A")]
        1 2 10 (some "A") (some "A")
      = (.alreadyRegistered 1, [mkEntry 1 1 10 (some "A") (some "A")])) ∧
    (register_position [⟨1, "E", 3, 0⟩] [mkEntry 1 1 10 (some "A") (some "A")]
        1 5 30 (some "C") (some "C")
      = (.outOfRange 3, [mkEntry 1 1 10 (some "A") (some "A")])) := by
  refine ⟨?_, ?_, ?_, ?_, ?_, ?_, ?_, ?_⟩
  · intro events q eid pos uid un fn h
    exact register_not_found h
  · intro events q eid pos uid un fn ev h hr
    exact register_out_of_range h hr
  · intro events q eid pos uid un fn ev ex h h1 h2 hf
    exact register_taken h h1 h2 hf
  · intro events q eid pos uid un fn ev pr h h1 h2 hf hu
    exact register_already h h1 h2 hf hu
  · intro events q eid pos uid un fn ev h h1 h2 hf hu
    exact register_ok h h1 h2 hf hu
  · decide
  · decide
  · decide

/-- Witness for C2 at a concrete input: registering into a missing event
reports EventNotFound. -/
theorem claim2_register_check_order_witness :
    register_position [] [] 7 1 1 none none = (.eventNotFound, []) :=
  claim2_register_check_order.1 [] [] 7 1 1 none none rfl

/-- C3: under the queue invariant, `swap_positions` succeeds iff both callers
hold positions in the event; on success the two position values are exchanged
(`swapEnt`) while every other field and every other row is untouched; on
failure the queue is returned unchanged. -/
theorem claim3_swap_iff_and_frame (events : List EventRec) (q : Queue)
    (eid u1 u2 : Nat) (hinv : invar events q = true) :
    ((swap_positions q eid u1 u2).1 = true ↔
      (q.find? (isUser eid u1)).isSome ∧ (q.find? (isUser eid u2)).isSome) ∧
    (∀ e1 e2 : Entry, q.find? (isUser eid u1) = some e1 →
      q.find? (isUser eid u2) = some e2 →
      swap_positions q eid u1 u2
        = (true, q.map (swapEnt eid u1 u2 e1.position e2.position))) ∧
    ((swap_positions q eid u1 u2).1 = false →
      (swap_positions q eid u1 u2).2 = q) := by
  obtain ⟨hPK, hUK, hIR⟩ := (invar_iff events q).mp hinv
  refine ⟨⟨?_, ?_⟩, ?_, ?_⟩
  · intro ht
    rcases h1 : q.find? (isUser eid u1) with _ | e1
    · rw [swap_positions_not_found (Or.inl h1)] at ht
      simp at ht
    · rcases h2 : q.find? (isUser eid u2) with _ | e2
      · rw [swap_positions_not_found (Or.inr h2)] at ht
        simp at ht
      · constructor <;> simp [h1, h2]
  · rintro ⟨hs1, hs2⟩
    rcases Option.isSome_iff_exists.mp hs1 with ⟨e1, h1⟩
    rcases Option.isSome_iff_exists.mp hs2 with ⟨e2, h2⟩
    rw [swap_positions_success hPK hUK hIR.pos_ge_one h1 h2]
  · intro e1 e2 h1 h2
    exact swap_positions_success hPK hUK hIR.pos_ge_one h1 h2
  · intro hf
    exact congrArg Prod.snd (swap_positions_frame hf)

/-- Witness for C3 at a concrete input: two registered callers swap, and the
resulting queue has the positions exchanged. -/
theorem claim3_swap_iff_and_frame_witness :
    swap_positions [mkEntry 1 1 10 (some "A") none, mkEntry 1 2 20 (some "B") none]
      1 10 20
      = (true, [mkEntry 1 2 10 (some "A") none, mkEntry 1 1 20 (some "B") none]) := by
  have h := (claim3_swap_iff_and_frame [⟨1, "E", 3, 0⟩]
      [mkEntry 1 1 10 (some "A") none, mkEntry 1 2 20 (some "B") none]
      1 10 20 (by decide)).2.1
      (mkEntry 1 1 10 (some "A") none) (mkEntry 1 2 20 (some "B") none)
      (by decide) (by decide)
  exact h.trans (by decide)

theorem isUser_swapEnt (eid u u1 u2 : Nat) (p1 p2 : Int) (x : Entry) :
    isUser eid u (swapEnt eid u1 u2 p1 p2 x) = isUser eid u x := by
  cases hA : isUser eid u1 x <;> cases hB : isUser eid u2 x <;>
    simp [swapEnt, hA, hB, isUser_set_position]

theorem unique_user_entry {q : Queue} (hUK : UserUnique q) {eid uid : Nat}
    {e : Entry} (hfind : q.find? (isUser eid uid) = some e)
    {x : Entry} (hx : x ∈ q) (hPx : isUser eid uid x = true) : x = e := by
  have he := List.mem_of_find?_eq_some hfind
  have hPe := List.find?_some hfind
  have hfil := filter_eq_single_of_unique (userPair_of_UserUnique hUK eid uid) he hPe
  have hmem : x ∈ q.filter (isUser eid uid) := List.mem_filter.mpr ⟨hx, hPx⟩
  rw [hfil] at hmem
  exact List.mem_singleton.mp hmem

theorem entry_eta_position (x : Entry) : ({ x with position := x.position }) = x :=
  rfl

/-- C4: for distinct callers both registered in the event and a queue
satisfying the invariant, swapping twice succeeds both times and restores the
queue exactly (swap is an involution on the queue state). -/
theorem claim4_swap_involution (events : List EventRec) (q : Queue)
    (eid u1 u2 : Nat) (hinv : invar events q = true) (hne : u1 ≠ u2)
    (hs1 : (q.find? (isUser eid u1)).isSome)
    (hs2 : (q.find? (isUser eid u2)).isSome) :
    (swap_positions q eid u1 u2).1 = true ∧
    (swap_positions (swap_positions q eid u1 u2).2 eid u1 u2).1 = true ∧
    (swap_positions (swap_positions q eid u1 u2).2 eid u1 u2).2 = q := by
  obtain ⟨hPK, hUK, hIR⟩ := (invar_iff events q).mp hinv
  rcases Option.isSome_iff_exists.mp hs1 with ⟨e1, h1⟩
  rcases Option.isSome_iff_exists.mp hs2 with ⟨e2, h2⟩
  have hu1 : e1.event_id = eid ∧ e1.user_id = u1 :=
    (isUser_iff _ _ _).mp (List.find?_some h1)
  have hu2 : e2.event_id = eid ∧ e2.user_id = u2 :=
    (isUser_iff _ _ _).mp (List.find?_some h2)
  have hswap1 := swap_positions_success hPK hUK hIR.pos_ge_one h1 h2
  have hq1 : (swap_positions q eid u1 u2).2
      = q.map (swapEnt eid u1 u2 e1.position e2.position) := by
    rw [hswap1]
  have hPK1 : PosUnique (q.map (swapEnt eid u1 u2 e1.position e2.position)) :=
    swap_preserves_PosUnique hPK hUK hIR.pos_ge_one h1 h2
  have hUK1 : UserUnique (q.map (swapEnt eid u1 u2 e1.position e2.position)) :=
    swap_preserves_UserUnique _ _ _ _ _ hUK
  have hIR1 : InRange events (q.map (swapEnt eid u1 u2 e1.position e2.position)) :=
    swap_preserves_InRange hIR (List.mem_of_find?_eq_some h1)
      (List.mem_of_find?_eq_some h2) hu1.1 hu2.1
  have hcomp1 : (isUser eid u1) ∘ (swapEnt eid u1 u2 e1.position e2.position)
      = isUser eid u1 := funext fun x => isUser_swapEnt eid u1 u1 u2 _ _ x
  have hcomp2 : (isUser eid u2) ∘ (swapEnt eid u1 u2 e1.position e2.position)
      = isUser eid u2 := funext fun x => isUser_swapEnt eid u2 u1 u2 _ _ x
  have hA1 : isUser eid u1 e1 = true := List.find?_some h1
  have hA2 : isUser eid u2 e2 = true := List.find?_some h2
  have hA1ne : isUser eid u1 e2 = false := by
    rw [Bool.eq_false_iff]
    intro hcon
    exact hne (((isUser_iff _ _ _).mp hcon).2.symm.trans hu2.2)
  have hfe1 : swapEnt eid u1 u2 e1.position e2.position e1
      = { e1 with position := e2.position } :=
    swapEnt_of_match1 _ _ _ _ _ _ hA1
  have hfe2 : swapEnt eid u1 u2 e1.position e2.position e2
      = { e2 with position := e1.position } :=
    swapEnt_of_match2 _ _ _ _ _ _ hA1ne hA2
  have hfind1 : (q.map (swapEnt eid u1 u2 e1.position e2.position)).find?
      (isUser eid u1) = some { e1 with position := e2.position } := by
    rw [List.find?_map, hcomp1, h1, Option.map_some', hfe1]
  have hfind2 : (q.map (swapEnt eid u1 u2 e1.position e2.position)).find?
      (isUser eid u2) = some { e2 with position := e1.position } := by
    rw [List.find?_map, hcomp2, h2, Option.map_some', hfe2]
  have hswap2 := swap_positions_success hPK1 hUK1 hIR1.pos_ge_one hfind1 hfind2
  refine ⟨by rw [hswap1], by rw [hq1, hswap2], ?_⟩
  rw [hq1, hswap2]
  show (q.map (swapEnt eid u1 u2 e1.position e2.position)).map
      (swapEnt eid u1 u2 e2.position e1.position) = q
  rw [List.map_map]
  have hpt : ∀ x ∈ q,
      ((swapEnt eid u1 u2 e2.position e1.position)
        ∘ (swapEnt eid u1 u2 e1.position e2.position)) x = x := by
    intro x hx
    simp only [Function.comp_apply]
    cases hA : isUser eid u1 x
    · cases hB : isUser eid u2 x
      · rw [swapEnt_of_no_match _ _ _ _ _ _ hA hB,
          swapEnt_of_no_match _ _ _ _ _ _ hA hB]
      · have hxe : x = e2 := unique_user_entry hUK h2 hx hB
        rw [swapEnt_of_match2 _ _ _ _ _ _ hA hB]
        have hA' : isUser eid u1 ({ x with position := e1.position }) = false := by
          rw [isUser_set_position]
          exact hA
        have hB' : isUser eid u2 ({ x with position := e1.position }) = true := by
          rw [isUser_set_position]
          exact hB
        rw [swapEnt_of_match2 _ _ _ _ _ _ hA' hB']
        rw [hxe]
    · have hxe : x = e1 := unique_user_entry hUK h1 hx hA
      rw [swapEnt_of_match1 _ _ _ _ _ _ hA]
      have hA' : isUser eid u1 ({ x with position := e2.position }) = true := by
        rw [isUser_set_position]
        exact hA
      rw [swapEnt_of_match1 _ _ _ _ _ _ hA']
      rw [hxe]
  exact (List.map_congr_left hpt).trans (List.map_id' q)

/-- Witness for C4 at a concrete input: a two-entry queue returns to its exact
original state after two identical swaps. -/
theorem claim4_swap_involution_witness :
    (swap_positions [mkEntry 1 1 10 (some "A") none, mkEntry 1 2 20 (some "B") none]
        1 10 20).1 = true ∧
    (swap_positions (swap_positions
        [mkEntry 1 1 10 (some "A") none, mkEntry 1 2 20 (some "B") none]
        1 10 20).2 1 10 20).1 = true ∧
    (swap_positions (swap_positions
        [mkEntry 1 1 10 (some "A") none, mkEntry 1 2 20 (some "B") none]
        1 10 20).2 1 10 20).2
      = [mkEntry 1 1 10 (some "A") none, mkEntry 1 2 20 (some "B") none] :=
  claim4_swap_involution [⟨1, "E", 3, 0⟩]
    [mkEntry 1 1 10 (some "A") none, mkEntry 1 2 20 (some "B") none]
    1 10 20 (by decide) (by decide) (by decide) (by decide)

/-- C5: when the event exists and the position is in range, `admin_register`
deletes the own entry of the caller first, then reports (and deletes) whoever then
holds the target position, then inserts the caller there and succeeds; in the
concrete scenario where B holds position 2, admin-registering C at position 2
reports displaced B, and the listed queue shows C at position 2 with no entry
for B. -/
theorem claim5_admin_override :
    (∀ (events : List EventRec) (q : Queue) (eid : Nat) (pos : Int) (uid : Nat)
        (username : String) (fn : Option String) (ev : EventRec),
        getEvent events eid = some ev → ¬pos < 1 → ¬pos > ev.max_positions →
        admin_register events q eid pos uid username fn
          = (.ok (((q.filter (fun x => !(isUser eid uid x))).find?
                (isPos eid pos)).map (fun k => k.username)),
             ((q.filter (fun x => !(isUser eid uid x))).filter
                (fun x => !(isPos eid pos x)))
               ++ [mkEntry eid pos uid (some username) (some (pyOr fn username))])) ∧
    (admin_register [⟨1, "E", 3, 0⟩]
        [mkEntry 1 1 10 (some "A") (some "A"), mkEntry 1 2 20 (some "B") none]
        1 2 30 "C" (some "Carol")
      = (.ok (some (some "B")),
         [mkEntry 1 1 10 (some "A") (some "A"),
          mkEntry 1 2 30 (some "C") (some "Carol")])) ∧
    (get_queue (admin_register [⟨1, "E", 3, 0⟩]
        [mkEntry 1 1 10 (some "A") (some "A"), mkEntry 1 2 20 (some "B") none]
        1 2 30 "C" (some "Carol")).2 1
      = [mkEntry 1 1 10 (some "A") (some "A"),
         mkEntry 1 2 30 (some "C") (some "Carol")]) := by
  refine ⟨?_, by decide, by decide⟩
  intro events q eid pos uid username fn ev h h1 h2
  exact admin_ok h h1 h2

/-- Witness for C5 at a concrete input: admin-registering into an empty queue
succeeds with nobody displaced. -/
theorem claim5_admin_override_witness :
    admin_register [⟨1, "E", 3, 0⟩] [] 1 1 5 "X" none
      = (.ok none, [mkEntry 1 1 5 (some "X") (some "X")]) := by
  have h := claim5_admin_override.1 [⟨1, "E", 3, 0⟩] [] 1 1 5 "X" none
    ⟨1, "E", 3, 0⟩ rfl (by decide) (by decide)
  exact h.trans (by decide)

/-- C9: when a caller who already holds the target position is
admin-registered onto that same position (event exists, position in range),
the call succeeds with no displaced caller — the own row of the caller is deleted
before the occupant of the position is looked up — and afterwards exactly one
row belongs to that caller, at that position. -/
theorem claim9_admin_self_reregister (events : List EventRec) (q : Queue)
    (eid : Nat) (pos : Int) (uid : Nat) (username : String) (fn : Option String)
    (ev : EventRec) (e : Entry)
    (hinv : invar events q = true)
    (hev : getEvent events eid = some ev)
    (h1 : ¬pos < 1) (h2 : ¬pos > ev.max_positions)
    (hmem : e ∈ q) (hus : isUser eid uid e = true) (hpos : e.position = pos) :
    admin_register events q eid pos uid username fn
      = (.ok none,
         ((q.filter (fun x => !(isUser eid uid x))).filter
            (fun x => !(isPos eid pos x)))
           ++ [mkEntry eid pos uid (some username) (some (pyOr fn username))]) ∧
    (admin_register events q eid pos uid username fn).2.filter (isUser eid uid)
      = [mkEntry eid pos uid (some username) (some (pyOr fn username))] := by
  obtain ⟨hPK, hUK, hIR⟩ := (invar_iff events q).mp hinv
  have hkick : (q.filter (fun x => !(isUser eid uid x))).find? (isPos eid pos)
      = none := by
    rw [List.find?_eq_none]
    intro x hx hPx
    have hxq := List.mem_of_mem_filter hx
    have hxu : isUser eid uid x = false := by
      simpa using (List.mem_filter.mp hx).2
    have hne : x ≠ e := by
      intro hq
      rw [hq, hus] at hxu
      cases hxu
    have hpx := (isPos_iff _ _ _).mp hPx
    have hep : e.event_id = eid := ((isUser_iff _ _ _).mp hus).1
    exact posDistinct hPK hxq hmem hne ⟨hpx.1.trans hep.symm, hpx.2.trans hpos.symm⟩
  have hmain := @admin_ok events q eid pos uid username fn ev hev h1 h2
  rw [hkick] at hmain
  have hmain' : admin_register events q eid pos uid username fn
      = (.ok none,
         ((q.filter (fun x => !(isUser eid uid x))).filter
            (fun x => !(isPos eid pos x)))
           ++ [mkEntry eid pos uid (some username) (some (pyOr fn username))]) := by
    simpa using hmain
  refine ⟨hmain', ?_⟩
  have hsnd := congrArg Prod.snd hmain'
  rw [hsnd, List.filter_append]
  have hleft : ((q.filter (fun x => !(isUser eid uid x))).filter
      (fun x => !(isPos eid pos x))).filter (isUser eid uid) = [] := by
    rw [List.filter_eq_nil_iff]
    intro x hx
    have hx1 := List.mem_of_mem_filter hx
    have hxu : isUser eid uid x = false := by
      simpa using (List.mem_filter.mp hx1).2
    simp [hxu]
  have hright : ([mkEntry eid pos uid (some username)
      (some (pyOr fn username))] : Queue).filter (isUser eid uid)
      = [mkEntry eid pos uid (some username) (some (pyOr fn username))] := by
    simp [List.filter, isUser, mkEntry]
  rw [hleft, hright]
  rfl

/-- Witness for C9 at a concrete input: a caller holding position 2
admin-registered again at position 2 succeeds with no displaced caller. -/
theorem claim9_admin_self_reregister_witness :
    admin_register [⟨1, "E", 3, 0⟩] [mkEntry 1 2 10 (some "A") none] 1 2 10
        "A2" none
      = (.ok none, [mkEntry 1 2 10 (some "A2") (some "A2")]) := by
  have h := (claim9_admin_self_reregister [⟨1, "E", 3, 0⟩]
    [mkEntry 1 2 10 (some "A") none] 1 2 10 "A2" none ⟨1, "E", 3, 0⟩
    (mkEntry 1 2 10 (some "A") none) (by decide) (by decide) (by decide)
    (by decide) (by decide) (by decide) (by decide)).1
  exact h.trans (by decide)

theorem pendingGet_del (p : PendingMap) (t : Nat) :
    pendingGet (pendingDel p t) t = none := by
  unfold pendingGet pendingDel
  have hfind : (p.filter (fun kv => kv.1 != t)).find? (fun kv => kv.1 == t)
      = none := by
    rw [List.find?_eq_none]
    intro kv hkv
    have := (List.mem_filter.mp hkv).2
    simpa using this
  rw [hfind]
  rfl

theorem accept_stale_of_none {pend : PendingMap} {q : Queue}
    {target from_uid : Nat} (h : pendingGet pend target = none) :
    callback_exchange_accept pend q target from_uid = (.stale, pend, q) := by
  simp only [callback_exchange_accept, h]

/-- C6: when a matching pending exchange request exists, `accept` clears it
whether or not the underlying swap succeeded, so an immediately repeated
identical accept finds no pending request, answers stale, and changes neither
the pending store nor the queue. -/
theorem claim6_accept_second_is_stale (pend : PendingMap) (q : Queue)
    (target from_uid : Nat) (ex : Exchange)
    (hp : pendingGet pend target = some ex)
    (hm : ex.from_user_id = from_uid) :
    pendingGet (callback_exchange_accept pend q target from_uid).2.1 target
      = none ∧
    callback_exchange_accept
        (callback_exchange_accept pend q target from_uid).2.1
        (callback_exchange_accept pend q target from_uid).2.2 target from_uid
      = (.stale, (callback_exchange_accept pend q target from_uid).2.1,
         (callback_exchange_accept pend q target from_uid).2.2) := by
  have hne : (ex.from_user_id != from_uid) = false := by simp [hm]
  have hcall : (callback_exchange_accept pend q target from_uid).2.1
      = pendingDel pend target := by
    simp only [callback_exchange_accept, hp, hne, Bool.false_eq_true, if_false]
  have hstale : pendingGet
      (callback_exchange_accept pend q target from_uid).2.1 target = none := by
    rw [hcall]
    exact pendingGet_del pend target
  exact ⟨hstale, accept_stale_of_none hstale⟩

/-- Witness for C6 at a concrete input: after a successful accept, the
repeated accept is stale and mutates nothing. -/
theorem claim6_accept_second_is_stale_witness :
    pendingGet (callback_exchange_accept
        [(20, ⟨10, 1, 1, 2⟩)]
        [mkEntry 1 1 10 (some "A") none, mkEntry 1 2 20 (some "B") none]
        20 10).2.1 20 = none ∧
    callback_exchange_accept
        (callback_exchange_accept [(20, ⟨10, 1, 1, 2⟩)]
          [mkEntry 1 1 10 (some "A") none, mkEntry 1 2 20 (some "B") none]
          20 10).2.1
        (callback_exchange_accept [(20, ⟨10, 1, 1, 2⟩)]
          [mkEntry 1 1 10 (some "A") none, mkEntry 1 2 20 (some "B") none]
          20 10).2.2 20 10
      = (.stale,
         (callback_exchange_accept [(20, ⟨10, 1, 1, 2⟩)]
           [mkEntry 1 1 10 (some "A") none, mkEntry 1 2 20 (some "B") none]
           20 10).2.1,
         (callback_exchange_accept [(20, ⟨10, 1, 1, 2⟩)]
           [mkEntry 1 1 10 (some "A") none, mkEntry 1 2 20 (some "B") none]
           20 10).2.2) :=
  claim6_accept_second_is_stale [(20, ⟨10, 1, 1, 2⟩)]
    [mkEntry 1 1 10 (some "A") none, mkEntry 1 2 20 (some "B") none]
    20 10 ⟨10, 1, 1, 2⟩ (by decide) (by decide)

/-- C7 counterexample: `rename_event` on an id that does not exist returns
success (`True`) — the `UPDATE` matches zero rows and commits — rather than
the NotFound failure the claim requires. -/
theorem claim7_rename_counterexample :
    rename_event ([] : List EventRec) 1 "x" = (true, []) := by decide

/-- C7 amended: `rename_event` fails (returns False) exactly when the renamed
event exists and a different event already bears the new name; in every other
case — including when no event with the given id exists — it returns success,
with no NotFound error. -/
theorem claim7_rename_amended :
    (∀ (events : List EventRec) (eid : Nat) (newName : String),
        getEvent events eid = none →
        rename_event events eid newName = (true, events)) ∧
    (∀ (events : List EventRec) (eid : Nat) (newName : String) (ev : EventRec),
        getEvent events eid = some ev →
        (∃ x ∈ events, x.id ≠ eid ∧ x.name = newName) →
        rename_event events eid newName = (false, events)) ∧
    (∀ (events : List EventRec) (eid : Nat) (newName : String) (ev : EventRec),
        getEvent events eid = some ev →
        (∀ x ∈ events, x.id = eid ∨ x.name ≠ newName) →
        rename_event events eid newName
          = (true, events.map
              (fun e => if e.id == eid then { e with name := newName } else e))) := by
  refine ⟨?_, ?_, ?_⟩
  · intro events eid newName h
    have ha : (events.any (fun e => e.id == eid)) = false := by
      rw [List.any_eq_false]
      intro x hx
      have := List.find?_eq_none.mp h x hx
      simpa using this
    simp [rename_event, ha]
  · intro events eid newName ev h hex
    have ha : (events.any (fun e => e.id == eid)) = true := by
      rw [List.any_eq_true]
      refine ⟨ev, List.mem_of_find?_eq_some h, ?_⟩
      have hpe := List.find?_some
        (show List.find? (fun e : EventRec => e.id == eid) events = some ev from h)
      exact hpe
    have hb : (events.any (fun x => x.id != eid && x.name == newName)) = true := by
      rw [List.any_eq_true]
      rcases hex with ⟨x, hx, hne, hname⟩
      exact ⟨x, hx, by simp [hne, hname]⟩
    simp [rename_event, ha, hb]
  · intro events eid newName ev h hall
    have ha : (events.any (fun e => e.id == eid)) = true := by
      rw [List.any_eq_true]
      refine ⟨ev, List.mem_of_find?_eq_some h, ?_⟩
      have hpe := List.find?_some
        (show List.find? (fun e : EventRec => e.id == eid) events = some ev from h)
      exact hpe
    have hb : (events.any (fun x => x.id != eid && x.name == newName)) = false := by
      rw [List.any_eq_false]
      intro x hx
      rcases hall x hx with hid | hn
      · simp [hid]
      · simp [hn]
    simp [rename_event, ha, hb]

/-- Witness for the amended C7 at a concrete input: renaming a missing id
succeeds and leaves the catalog unchanged. -/
theorem claim7_rename_amended_witness :
    rename_event ([⟨1, "E", 3, 0⟩] : List EventRec) 2 "F"
      = (true, [⟨1, "E", 3, 0⟩]) :=
  claim7_rename_amended.1 [⟨1, "E", 3, 0⟩] 2 "F" (by decide)

/-- C8 counterexample: capacity text "0" parses as the integer 0 — not
defaulted, since it is neither empty nor unparseable — and the event is
created with `max_positions = 0`, below 1. -/
theorem claim8_capacity_counterexample :
    parse_max_positions "0" = 0 ∧
    create_event_flow [] "E" "0" 0
      = (true, [{ id := 1, name := "E", max_positions := 0, subgroup := 0 }]) := by
  constructor <;> decide

/-- C8 amended: in the `AwaitingCapacity` step, empty or unparseable input
defaults to 30, but any parseable integer — including 0 and negative values —
is stored as the event capacity unchanged, so events with capacity below 1
are reachable. -/
theorem claim8_capacity_amended :
    (∀ text : String, pyStrip text = [] → parse_max_positions text = 30) ∧
    (∀ text : String, pyStrip text ≠ [] → pyInt text = none →
        parse_max_positions text = 30) ∧
    (∀ (text : String) (n : Int), pyStrip text ≠ [] → pyInt text = some n →
        parse_max_positions text = n) ∧
    (∀ (events : List EventRec) (name text : String) (subgroup : Int),
        (create_event_flow events name text subgroup).1 = true →
        ∃ ev : EventRec,
          (create_event_flow events name text subgroup).2.getLast? = some ev ∧
          ev.name = name ∧ ev.max_positions = parse_max_positions text ∧
          ev.subgroup = subgroup) := by
  refine ⟨?_, ?_, ?_, ?_⟩
  · intro text h
    simp [parse_max_positions, h]
  · intro text h hn
    simp [parse_max_positions, h, hn]
  · intro text n h hs
    simp [parse_max_positions, h, hs]
  · intro events name text subgroup hsucc
    by_cases hdup : (events.any (fun e => e.name == name)) = true
    · rw [show create_event_flow events name text subgroup = (false, events) by
        simp [create_event_flow, add_event, hdup]] at hsucc
      cases hsucc
    · have hdup' : (events.any (fun e => e.name == name)) = false :=
        Bool.eq_false_iff.mpr hdup
      have hflow : create_event_flow events name text subgroup
          = (true, events
              ++ [mkEvent ((events.map (fun e => e.id)).foldr max 0 + 1)
                name (parse_max_positions text) subgroup]) := by
        simp [create_event_flow, add_event, hdup']
      rw [hflow]
      exact ⟨_, List.getLast?_concat events, rfl, rfl, rfl⟩

/-- Witness for the amended C8 at a concrete input: input "0" is parseable
and stored verbatim as capacity 0. -/
theorem claim8_capacity_amended_witness :
    parse_max_positions "0" = 0 :=
  claim8_capacity_amended.2.2.1 "0" 0 (by decide) (by decide)

theorem containsSub_nil (s : List Char) : containsSub s [] = true := by
  cases s <;> simp [containsSub, List.tails]

/-- C10: with the empty keyword, `find_event_by_keyword` matches every event
(the empty substring occurs in every name), returning the most recently
created event — the last of the creation-ordered catalog — and `none` exactly
when the catalog is empty. -/
theorem claim10_empty_keyword (events : List EventRec) :
    find_event_by_keyword events "" = events.getLast? ∧
    (find_event_by_keyword events "" = none ↔ events = []) := by
  have hfil : events.filter
      (fun e => containsSub (lowerStr e.name) (lowerStr "")) = events := by
    rw [List.filter_eq_self]
    intro a ha
    show containsSub (lowerStr a.name) (lowerStr "") = true
    have hempty : lowerStr "" = [] := rfl
    rw [hempty]
    exact containsSub_nil _
  constructor
  · unfold find_event_by_keyword
    rw [hfil]
  · unfold find_event_by_keyword
    rw [hfil]
    exact List.getLast?_eq_none_iff
